import Mathlib

/-!
Verification of the AgentSynapse coordination core: a shallow embedding of
the execution planner (`AgentOrchestrator._buildExecutionPlan`), the plan
executor (`AgentOrchestrator._executeParallelTasks`), the agent engine loop
(`AgentEngine.execute`) and the context assembler
(`MemoryManager.retrieveContext`), together with theorems settling the
specification claims about them.
-/

namespace AgentSynapse

/-- Enum `AgentStatus` from `schemas/baseSchemas.py`. -/
inductive AgentStatus
  | idle
  | running
  | completed
  | failed
  | timeout
  | cancelled

deriving DecidableEq, Repr

/-- Enum `AgentType` from `schemas/baseSchemas.py`. -/
inductive AgentType
  | orchestrator
  | sqlAgent
  | biAgent
  | etlAgent
  | analyticsAgent
  | custom

deriving DecidableEq, Repr

/-- Schema `TaskDecomposition` from `schemas/baseSchemas.py` (the fields the
coordination core reads; `status`/`result` are mutated by the executor and
are modelled in the executor's output instead of as mutable fields). -/
structure TaskDecomposition where
  taskId : String
  description : String
  assignedAgentType : AgentType
  dependencies : List String
  priority : Nat
  estimatedTokens : Nat

deriving DecidableEq, Repr

/-- The two-bucket plan built by `_buildExecutionPlan`
(`plan = {"sequential": [...], "parallel": [...]}`). -/
structure ExecutionPlan where
  sequential : List TaskDecomposition
  parallel : List TaskDecomposition

deriving DecidableEq, Repr

/-- Test `all(dep in completed for dep in task.dependencies)` —
the wave-admission test of `_buildExecutionPlan`. -/
def taskReady (completed : List String) (t : TaskDecomposition) : Bool :=
  t.dependencies.all (fun d => completed.contains d)

/-- The layering loop (`while remaining:`) of `_buildExecutionPlan`
(`agentOrchestrator.py` lines 153-168).  Each pass collects every remaining
task whose dependencies are all completed into `currentWave`; an empty pass
(circular dependency) breaks.  Every productive pass strictly shrinks
`remaining`, so `remaining.length` passes always suffice; the loop is
rendered with that bound as structural fuel. -/
def buildWavesAux (completed : List String) (remaining : List TaskDecomposition) :
    Nat → List (List TaskDecomposition)
  | 0 => []
  | fuel + 1 =>
    let currentWave := remaining.filter (taskReady completed)
    if currentWave.isEmpty then []
    else
      currentWave ::
        buildWavesAux (completed ++ currentWave.map (fun t => t.taskId))
          (remaining.filter (fun t => ! taskReady completed t)) fuel

/-- The wave list computed by `_buildExecutionPlan` before the two-bucket
flattening. -/
def buildWaves (tasks : List TaskDecomposition) : List (List TaskDecomposition) :=
  buildWavesAux [] tasks tasks.length

/-- Method `_buildExecutionPlan` (`agentOrchestrator.py` lines 140-176): layer the
tasks into waves, then put each wave of more than one task into the
`parallel` bucket and each singleton wave into the `sequential` bucket. -/
def buildExecutionPlan (tasks : List TaskDecomposition) : ExecutionPlan :=
  (buildWaves tasks).foldl
    (fun plan wave =>
      if 1 < wave.length then { plan with parallel := plan.parallel ++ wave }
      else { plan with sequential := plan.sequential ++ wave })
    { sequential := [], parallel := [] }

/-- The spec's scenario task A: no dependencies. -/
def taskA : TaskDecomposition :=
  { taskId := "A", description := "subtask A", assignedAgentType := .sqlAgent
    dependencies := [], priority := 1, estimatedTokens := 1000 }

/-- The spec's scenario task B: no dependencies. -/
def taskB : TaskDecomposition :=
  { taskId := "B", description := "subtask B", assignedAgentType := .biAgent
    dependencies := [], priority := 1, estimatedTokens := 1000 }

/-- The spec's scenario task C: depends on both A and B. -/
def taskC : TaskDecomposition :=
  { taskId := "C", description := "subtask C", assignedAgentType := .analyticsAgent
    dependencies := ["A", "B"], priority := 1, estimatedTokens := 1000 }

/-- The spec's three-subtask scenario input. -/
def scenarioTasks : List TaskDecomposition := [taskA, taskB, taskC]

/-- Outcome of `_executeTask` for one subtask: the awaited coroutine either
returns a result payload or raises (`AgentEngine.execute` re-raises any
in-turn failure as `AgentExecutionError`). -/
inductive TaskOutcome
  | ok (result : String)
  | raised (message : String)

deriving DecidableEq, Repr

/-- One entry of the `results` mapping built by `_executeParallelTasks`:
either a task's result payload, or the `{"error": str(result)}` entry
synthesized for a raised parallel task. -/
inductive ResultEntry
  | ok (result : String)
  | errorEntry (message : String)

deriving DecidableEq, Repr

/-- The conversion applied at `agentOrchestrator.py` lines 209-216 to each
`(task, result)` pair of the gathered parallel wave. -/
def parallelEntry (outcome : String → TaskOutcome) (t : TaskDecomposition) : ResultEntry :=
  match outcome t.taskId with
  | .ok r => .ok r
  | .raised e => .errorEntry e

/-- The sequential for-loop of `_executeParallelTasks` (lines 187-191):
each task is awaited in order and its result recorded under its id; the
loop body has no exception handler, so a raised task propagates out. -/
def runSequential (outcome : String → TaskOutcome) :
    List TaskDecomposition → Except String (List (String × ResultEntry))
  | [] => .ok []
  | t :: ts =>
    match outcome t.taskId with
    | .raised e => .error e
    | .ok r =>
      match runSequential outcome ts with
      | .error e => .error e
      | .ok rest => .ok ((t.taskId, .ok r) :: rest)

/-- The parallel block (lines 193-216): `asyncio.gather(...,
return_exceptions=True)` followed by `zip(parallelTasks, parallelResults)`,
recording one entry per parallel task. -/
def runParallelGather (outcome : String → TaskOutcome)
    (tasks : List TaskDecomposition) : List (String × ResultEntry) :=
  tasks.map (fun t => (t.taskId, parallelEntry outcome t))

/-- Method `_executeParallelTasks` (lines 178-218): the sequential bucket runs
first, then the parallel bucket; an exception raised by a sequential task
propagates to the caller. -/
def executeParallelTasks (outcome : String → TaskOutcome) (plan : ExecutionPlan) :
    Except String (List (String × ResultEntry)) :=
  match runSequential outcome plan.sequential with
  | .error e => .error e
  | .ok seqResults => .ok (seqResults ++ runParallelGather outcome plan.parallel)

/-- Start/settle events of one plan execution. -/
inductive ExecEvent
  | start (taskId : String)
  | settle (taskId : String)

deriving DecidableEq, Repr

/-- The sequential for-loop awaits each task in order: each task starts and
fully settles before the next one starts. -/
def sequentialTrace : List TaskDecomposition → List ExecEvent
  | [] => []
  | t :: ts => .start t.taskId :: .settle t.taskId :: sequentialTrace ts

/-- An execution trace of `_executeParallelTasks`: the whole sequential
bucket is awaited first, then `asyncio.gather` runs the parallel bucket;
`parSchedule` is whichever interleaving of the parallel tasks' start/settle
events the event loop produces (every admissible schedule eventually
settles each gathered parallel task). -/
def executionTrace (plan : ExecutionPlan) (parSchedule : List ExecEvent) : List ExecEvent :=
  sequentialTrace plan.sequential ++ parSchedule

/-- The ordering property claimed by the spec: a subtask starts only after
each of its dependencies has settled. -/
def startsAfterDepsSettle (tr : List ExecEvent) (tasks : List TaskDecomposition) : Prop :=
  ∀ t ∈ tasks, ∀ d ∈ t.dependencies, ∀ (i j : Nat),
    tr[i]? = some (.start t.taskId) → tr[j]? = some (.settle d) → j < i

/-- First task of the two-subtask chain used for C3 (no dependencies). -/
def taskT1 : TaskDecomposition :=
  { taskId := "T1", description := "subtask T1", assignedAgentType := .sqlAgent
    dependencies := [], priority := 1, estimatedTokens := 1000 }

/-- Second task of the chain: depends on T1, so both tasks land in
singleton waves and hence in the sequential bucket. -/
def taskT2 : TaskDecomposition :=
  { taskId := "T2", description := "subtask T2", assignedAgentType := .etlAgent
    dependencies := ["T1"], priority := 1, estimatedTokens := 1000 }

/-- The chain scenario input for C3. -/
def chainTasks : List TaskDecomposition := [taskT1, taskT2]

/-- Outcomes in which the first sequential task raises and every other task
would succeed. -/
def chainOutcome : String → TaskOutcome :=
  fun taskId => if taskId = "T1" then .raised "boom" else .ok "done"

/-- Outcomes for the C4 witness: parallel task A raises, its sibling B and
the sequential task C succeed. -/
def c4Outcome : String → TaskOutcome :=
  fun taskId => if taskId = "A" then .raised "x" else .ok "done"

/-- Token estimator `bedrockClient.countTokens` (`bedrockClient.py` line 169):
`len(text) // 4`. -/
def countTokens (text : String) : Nat := text.length / 4

/-- The greedy stop-on-overflow inclusion loop used for the episodic and
semantic tiers of `MemoryManager.retrieveContext` (lines 107-113 and
124-130): append a record only while the running total stays strictly
under the budget, breaking at the first overflow.  Returns the included
contents and the final running total. -/
def greedyInclude (maxTokens : Nat) : List String → Nat → List String × Nat
  | [], total => ([], total)
  | m :: ms, total =>
    let tokens := countTokens m
    if total + tokens < maxTokens then
      let rest := greedyInclude maxTokens ms (total + tokens)
      (m :: rest.1, rest.2)
    else ([], total)

/-- The `context` dictionary built by `retrieveContext`, with records
represented by their contents, plus a flag recording whether the
semantic-search branch (line 115) was entered. -/
structure ContextBundle where
  working : String
  episodic : List String
  semantic : List String
  procedural : List String
  totalTokens : Nat
  semanticFetched : Bool

deriving DecidableEq, Repr

/-- The working + episodic phase of `retrieveContext` (lines 97-113): the
snapshot's cost is always added; the episodic tier is greedily appended
only when the snapshot alone is still strictly under the budget. -/
def episodicPhase (workingCtx : String) (recentEpisodic : List String)
    (maxTokens : Nat) : List String × Nat :=
  if countTokens workingCtx < maxTokens
  then greedyInclude maxTokens recentEpisodic (countTokens workingCtx)
  else ([], countTokens workingCtx)

/-- The semantic phase of `retrieveContext` (lines 115-130): fetch and
greedily append the ranked semantic memories only when the running total
is still below 70% of the budget.  The float comparison
`totalTokens < maxTokens * 0.7` is modelled in exact rational arithmetic
as `10 * total < 7 * maxTokens`. -/
def semanticPhase (rankedSemantic : List String) (maxTokens : Nat)
    (total : Nat) : List String × Nat :=
  if 10 * total < 7 * maxTokens then greedyInclude maxTokens rankedSemantic total
  else ([], total)

/-- Method `MemoryManager.retrieveContext` (`memoryManager.py` lines 82-138).
`workingCtx` is `str()` of the working-memory snapshot (its token cost is
always added first); `recentEpisodic` holds the contents of the (at most
10) episodic records in retrieval order; `rankedSemantic` the contents of
the fetched semantic memories in the order `_rankMemories` returns them (a
permutation of the top-K search hits — the claims settled here do not
depend on that order); `proceduralNames` the names the procedural search
returns. -/
def retrieveContext (workingCtx : String) (recentEpisodic : List String)
    (rankedSemantic : List String) (proceduralNames : List String)
    (maxTokens : Nat) : ContextBundle :=
  { working := workingCtx
    episodic := (episodicPhase workingCtx recentEpisodic maxTokens).1
    semantic := (semanticPhase rankedSemantic maxTokens
      (episodicPhase workingCtx recentEpisodic maxTokens).2).1
    procedural := proceduralNames.take 3
    totalTokens := (semanticPhase rankedSemantic maxTokens
      (episodicPhase workingCtx recentEpisodic maxTokens).2).2
    semanticFetched :=
      decide (10 * (episodicPhase workingCtx recentEpisodic maxTokens).2 < 7 * maxTokens) }

/-- One tool-invocation request extracted from a model response
(`bedrockClient.extractToolCalls`). -/
structure ToolCallSpec where
  id : String
  name : String
  input : String

deriving DecidableEq, Repr

/-- One model response as the loop consumes it: reported usage, requested
tool calls, and the text treated as the final answer when no tool calls
are present. -/
structure ModelResponse where
  usageTokens : Nat
  toolCalls : List ToolCallSpec
  text : String

deriving DecidableEq, Repr

/-- The result recorded for one tool dispatch: a payload, or the in-band
`{"error": ...}` entry synthesized for a missing tool or a raising
executor. -/
inductive ToolResult
  | ok (result : String)
  | err (message : String)

deriving DecidableEq, Repr

/-- One entry of `execution.toolCalls` (`agentEngine.py` lines 184-189). -/
structure ToolCallRecord where
  id : String
  name : String
  input : String
  result : ToolResult

deriving DecidableEq, Repr

/-- The observable side effects of one `AgentEngine.execute` call, in
program order: registration of the execution record in
`_activeExecutions`, the tool-registry read, the memory reads
(`retrieveContext`, `getConversationHistory`), each model invocation, each
dispatched tool execution, and the memory writes after the loop. -/
inductive EngineEvent
  | registerExecution
  | toolsLoad
  | memReadContext
  | memReadHistory
  | modelCall (iteration : Nat)
  | toolExec (name : String)
  | memAppendUser
  | memAppendAssistant
  | memStoreInteraction (outcome : String)

deriving DecidableEq, Repr

/-- The environment of one `execute` call: the call's recursion depth, the
configured ceilings (`settings.agent.maxRecursionDepth`,
`settings.agent.maxTokenLimit`), whether the `retrieveContext` collaborator
read raises (the modelled exemplar of a collaborator error inside the
`try` block), the model response consumed by each iteration, the resolved
tool set, and each tool's dispatch outcome. -/
structure EngineEnv where
  depth : Nat
  maxRecursionDepth : Nat
  maxTokenLimit : Nat
  contextOutcome : Except String Unit
  responses : Nat → ModelResponse
  availableTools : List String
  toolOutcome : String → Except String String

/-- Schema `AgentExecution` from `schemas/baseSchemas.py` (the fields `execute`
writes). -/
structure AgentExecution where
  userMessage : String
  agentResponse : Option String
  status : AgentStatus
  toolCalls : List ToolCallRecord
  tokensUsed : Nat
  errorMessage : Option String
  depth : Nat

deriving DecidableEq, Repr

/-- What `execute` can raise: `RecursionDepthExceeded` propagates unwrapped
(it is raised before the `try` block); anything raised inside the `try`
block is wrapped as `AgentExecutionError` with the original message. -/
inductive EngineError
  | recursionDepthExceeded (currentDepth maxDepth : Nat)
  | agentExecutionError (message : String)

deriving DecidableEq, Repr

deriving instance DecidableEq for Except

/-- What one `execute` call produces: the caller-visible outcome, the
final field values of the execution record (`none` when the depth check
fails before the record is constructed), and the side-effect trace. -/
structure EngineResult where
  outcome : Except EngineError AgentExecution
  record : Option AgentExecution
  events : List EngineEvent

deriving DecidableEq, Repr

/-- Message `str(TokenLimitExceeded(tokensUsed, tokenLimit))` from
`utils/exceptions.py` lines 41-46. -/
def tokenLimitMessage (tokensUsed tokenLimit : Nat) : String :=
  "Token limit exceeded: " ++ toString tokensUsed ++ "/" ++ toString tokenLimit

/-- Tool lookup and dispatch for one requested call (`agentEngine.py`
lines 145-182): a name outside the resolved tool set yields the in-band
not-found error; a raising executor is caught and converted to an error
result. -/
def resolveToolResult (env : EngineEnv) (name : String) : ToolResult :=
  if env.availableTools.contains name then
    match env.toolOutcome name with
    | .ok r => .ok r
    | .error e => .err e
  else .err ("Tool " ++ name ++ " not found")

/-- The `toolExecutor.execute` dispatches issued for one iteration's
requested calls (only tools present in the resolved set are dispatched). -/
def toolEventsFor (env : EngineEnv) (calls : List ToolCallSpec) : List EngineEvent :=
  calls.flatMap (fun c =>
    if env.availableTools.contains c.name then [EngineEvent.toolExec c.name] else [])

/-- How the iteration loop of `execute` can exit: a response without tool
calls (`break` with the final text), the token-ceiling raise, or running
out of iterations. -/
inductive LoopExit
  | finished (iterations totalTokens : Nat) (text : String)
      (toolCalls : List ToolCallRecord) (events : List EngineEvent)
  | tokenExceeded (iterations totalTokens : Nat)
      (toolCalls : List ToolCallRecord) (events : List EngineEvent)
  | exhausted (iterations totalTokens : Nat)
      (toolCalls : List ToolCallRecord) (events : List EngineEvent)

deriving DecidableEq, Repr

/-- The events carried by a loop exit. -/
def loopEvents : LoopExit → List EngineEvent
  | .finished _ _ _ _ evs => evs
  | .tokenExceeded _ _ _ evs => evs
  | .exhausted _ _ _ evs => evs

/-- The `while iterations < maxIterations` loop of `execute`
(`agentEngine.py` lines 101-193), with the remaining iteration count as
the structural argument.  Each pass invokes the model, accumulates usage,
raises `TokenLimitExceeded` when the cumulative usage exceeds the ceiling,
breaks with the final text when the response carries no tool calls, and
otherwise dispatches every requested tool (recording each result) before
the next pass. -/
def runIterations (env : EngineEnv) :
    Nat → Nat → Nat → List ToolCallRecord → List EngineEvent → LoopExit
  | iterations, totalTokens, 0, toolCalls, events =>
    .exhausted iterations totalTokens toolCalls events
  | iterations, totalTokens, fuel + 1, toolCalls, events =>
    if env.maxTokenLimit < totalTokens + (env.responses (iterations + 1)).usageTokens then
      .tokenExceeded (iterations + 1)
        (totalTokens + (env.responses (iterations + 1)).usageTokens)
        toolCalls (events ++ [.modelCall (iterations + 1)])
    else if (env.responses (iterations + 1)).toolCalls.isEmpty then
      .finished (iterations + 1)
        (totalTokens + (env.responses (iterations + 1)).usageTokens)
        (env.responses (iterations + 1)).text toolCalls
        (events ++ [.modelCall (iterations + 1)])
    else
      runIterations env (iterations + 1)
        (totalTokens + (env.responses (iterations + 1)).usageTokens) fuel
        (toolCalls ++ (env.responses (iterations + 1)).toolCalls.map (fun c =>
          { id := c.id, name := c.name, input := c.input
            result := resolveToolResult env c.name }))
        (events ++ [.modelCall (iterations + 1)] ++
          toolEventsFor env (env.responses (iterations + 1)).toolCalls)

/-- Ceiling `maxIterations = 10`, the fixed value hard-coded at
`agentEngine.py` line 98. -/
def maxIterations : Nat := 10

/-- Truthiness of `execution.agentResponse` in the guard
`if execution.agentResponse:` (`agentEngine.py` line 208): Python treats
both `None` and the empty string as falsy, so a turn that finishes with an
empty final text skips the assistant append and the episodic write. -/
def responseTruthy : Option String → Bool
  | none => false
  | some t => t != ""

/-- Method `AgentEngine.execute` (`agentEngine.py` lines 31-248): depth check
before any state is created; record construction and registration; tool
and memory reads; the iteration loop; the post-loop `iterations >=
maxIterations` overwrite; the memory writes (user message always on the
non-raising path, assistant text and the derived episodic record only when
the final response is truthy — `if execution.agentResponse:` at line 208
skips both for `None` and for an empty final text); and the `except` block
that marks the record failed and wraps the exception as
`AgentExecutionError`. -/
def execute (env : EngineEnv) (userMessage : String) : EngineResult :=
  if env.maxRecursionDepth ≤ env.depth then
    { outcome := .error (.recursionDepthExceeded env.depth env.maxRecursionDepth)
      record := none, events := [] }
  else
    match env.contextOutcome with
    | .error e =>
      { outcome := .error (.agentExecutionError ("Agent execution failed: " ++ e))
        record := some { userMessage := userMessage, agentResponse := none
                         status := .failed, toolCalls := [], tokensUsed := 0
                         errorMessage := some e, depth := env.depth }
        events := [.registerExecution, .toolsLoad, .memReadContext] }
    | .ok _ =>
      match runIterations env 0 0 maxIterations [] [] with
      | .tokenExceeded _ tt tcs levs =>
        { outcome := .error (.agentExecutionError
            ("Agent execution failed: " ++ tokenLimitMessage tt env.maxTokenLimit))
          record := some { userMessage := userMessage, agentResponse := none
                           status := .failed, toolCalls := tcs, tokensUsed := 0
                           errorMessage := some (tokenLimitMessage tt env.maxTokenLimit)
                           depth := env.depth }
          events := [.registerExecution, .toolsLoad, .memReadContext,
            .memReadHistory] ++ levs }
      | .finished its tt text tcs levs =>
        let record : AgentExecution :=
          { userMessage := userMessage, agentResponse := some text
            status := if maxIterations ≤ its then .failed else .completed
            toolCalls := tcs, tokensUsed := tt
            errorMessage :=
              if maxIterations ≤ its then some "Max iterations exceeded" else none
            depth := env.depth }
        { outcome := .ok record, record := some record
          events := [.registerExecution, .toolsLoad, .memReadContext,
              .memReadHistory] ++ levs ++
            ([.memAppendUser] ++
              (if responseTruthy (some text) then
                [.memAppendAssistant,
                 .memStoreInteraction
                   (if record.status = AgentStatus.completed then "success" else "failed")]
               else [])) }
      | .exhausted _ _ tcs levs =>
        let record : AgentExecution :=
          { userMessage := userMessage, agentResponse := none
            status := .failed, toolCalls := tcs, tokensUsed := 0
            errorMessage := some "Max iterations exceeded", depth := env.depth }
        { outcome := .ok record, record := some record
          events := [.registerExecution, .toolsLoad, .memReadContext,
              .memReadHistory] ++ levs ++
            [.memAppendUser] }

/-- Cumulative model-reported token usage after `k` iterations
(`totalTokens` at `agentEngine.py` line 112). -/
def cumulativeUsage (env : EngineEnv) : Nat → Nat
  | 0 => 0
  | k + 1 => cumulativeUsage env k + (env.responses (k + 1)).usageTokens

/-- Classifier for model-invocation events. -/
def isModelCallEvent : EngineEvent → Bool
  | .modelCall _ => true
  | _ => false

/-- Classifier for episodic-record writes (`storeInteraction`). -/
def isStoreInteractionEvent : EngineEvent → Bool
  | .memStoreInteraction _ => true
  | _ => false

/-- Environment for the C8 witness: `depth = maxRecursionDepth = 5`
(the configured default). -/
def depthEnv : EngineEnv :=
  { depth := 5, maxRecursionDepth := 5, maxTokenLimit := 100000
    contextOutcome := .ok ()
    responses := fun _ => { usageTokens := 0, toolCalls := [], text := "" }
    availableTools := [], toolOutcome := fun _ => .ok "" }

/-- The model response consumed by every iteration of the C7 witness:
60 tokens of usage and one tool request. -/
def tokenEnvResponse : ModelResponse :=
  { usageTokens := 60
    toolCalls := [{ id := "call1", name := "search", input := "q" }]
    text := "" }

/-- Environment for the C7 witness: every iteration reports 60 tokens of
usage against a ceiling of 100 and requests a tool, so cumulative usage
first exceeds the ceiling after iteration 2. -/
def tokenEnv : EngineEnv :=
  { depth := 0, maxRecursionDepth := 5, maxTokenLimit := 100
    contextOutcome := .ok ()
    responses := fun _ => tokenEnvResponse
    availableTools := ["search"], toolOutcome := fun _ => .ok "hit" }

def toolRequestResponse : ModelResponse :=
  { usageTokens := 10
    toolCalls := [{ id := "c", name := "t", input := "i" }]
    text := "" }

def finalAnswerResponse : ModelResponse :=
  { usageTokens := 10, toolCalls := [], text := "final answer" }

/-- Environment for the C10 witness: iterations 1-9 request a tool,
iteration 10 returns a final answer, all well within the token ceiling. -/
def lastIterationEnv : EngineEnv :=
  { depth := 0, maxRecursionDepth := 5, maxTokenLimit := 100000
    contextOutcome := .ok ()
    responses := fun j => if j ≤ 9 then toolRequestResponse else finalAnswerResponse
    availableTools := ["t"], toolOutcome := fun _ => .ok "r" }

/-- Environment for the C6 counterexample: the first model response alone
exceeds the token ceiling, so the turn aborts with `TokenLimitExceeded`. -/
def tokenAbortEnv : EngineEnv :=
  { depth := 0, maxRecursionDepth := 5, maxTokenLimit := 100
    contextOutcome := .ok ()
    responses := fun _ => { usageTokens := 200, toolCalls := [], text := "hi" }
    availableTools := [], toolOutcome := fun _ => .ok "" }

/-- Environment for the C6 witness: the first response is a final answer
well within the ceiling, so the turn completes and both memory writes
happen. -/
def completedTurnEnv : EngineEnv :=
  { depth := 0, maxRecursionDepth := 5, maxTokenLimit := 100
    contextOutcome := .ok ()
    responses := fun _ => { usageTokens := 10, toolCalls := [], text := "hi" }
    availableTools := [], toolOutcome := fun _ => .ok "" }

theorem exists_min_rank {α : Type} (f : α → Nat) :
    ∀ l : List α, l ≠ [] → ∃ a ∈ l, ∀ b ∈ l, f a ≤ f b := by
  intro l
  induction l with
  | nil => intro h; exact absurd rfl h
  | cons a l ih =>
    intro _
    rcases l with _ | ⟨b, l'⟩
    · exact ⟨a, List.mem_singleton.mpr rfl, by intro c hc; simp at hc; simp [hc]⟩
    · obtain ⟨m, hm, hmin⟩ := ih (by simp)
      by_cases hle : f a ≤ f m
      · refine ⟨a, List.mem_cons_self a _, ?_⟩
        intro c hc
        rcases List.mem_cons.mp hc with h | h
        · simp [h]
        · exact le_trans hle (hmin c h)
      · refine ⟨m, List.mem_cons_of_mem a hm, ?_⟩
        intro c hc
        rcases List.mem_cons.mp hc with h | h
        · exact h ▸ le_of_lt (Nat.lt_of_not_le hle)
        · exact hmin c h

theorem length_filter_not_lt {α : Type} (p : α → Bool) :
    ∀ l : List α, (∃ a ∈ l, p a = true) →
      (l.filter (fun x => ! p x)).length < l.length := by
  intro l
  induction l with
  | nil => rintro ⟨a, ha, _⟩; exact absurd ha (List.not_mem_nil a)
  | cons a l ih =>
    rintro ⟨b, hb, hpb⟩
    by_cases hpa : p a = true
    · simp only [List.filter_cons, hpa, Bool.not_true]
      exact Nat.lt_succ_of_le (List.length_filter_le _ _)
    · have hbl : b ∈ l := by
        rcases List.mem_cons.mp hb with h | h
        · exact absurd (h ▸ hpb) hpa
        · exact h
      have hpa' : (! p a) = true := by
        cases hpab : p a
        · rfl
        · exact absurd hpab hpa
      simp only [List.filter_cons, hpa', if_true, List.length_cons]
      exact Nat.succ_lt_succ (ih ⟨b, hbl, hpb⟩)

/-- Unfolding of `taskReady` into membership. -/
theorem taskReady_iff (completed : List String) (t : TaskDecomposition) :
    taskReady completed t = true ↔ ∀ d ∈ t.dependencies, d ∈ completed := by
  simp [taskReady, List.all_eq_true]

/-- Wave invariant of the layering loop: any dependency of a task placed in
wave `i` was either completed before the loop started or belongs to a task
placed in a strictly earlier wave. -/
theorem buildWavesAux_dep_earlier :
    ∀ (fuel : Nat) (completed : List String) (remaining : List TaskDecomposition)
      (i : Nat) (w : List TaskDecomposition),
      (buildWavesAux completed remaining fuel)[i]? = some w →
      ∀ t ∈ w, ∀ d ∈ t.dependencies,
        d ∈ completed ∨
          ∃ j, j < i ∧ ∃ w2, (buildWavesAux completed remaining fuel)[j]? = some w2 ∧
            ∃ u ∈ w2, u.taskId = d := by
  intro fuel
  induction fuel with
  | zero => intro completed remaining i w hw; simp [buildWavesAux] at hw
  | succ fuel ih =>
    intro completed remaining i w hw t ht d hd
    by_cases hcw : (remaining.filter (taskReady completed)).isEmpty
    · rw [buildWavesAux, if_pos hcw] at hw
      simp at hw
    · rw [buildWavesAux, if_neg hcw] at hw
      rcases i with _ | i'
      · rw [List.getElem?_cons_zero] at hw
        have hwcw : w = remaining.filter (taskReady completed) := by
          exact (Option.some.injEq _ _).mp hw.symm
        have htr : taskReady completed t = true :=
          (List.mem_filter.mp (hwcw ▸ ht)).2
        exact Or.inl ((taskReady_iff completed t).mp htr d hd)
      · rw [List.getElem?_cons_succ] at hw
        rcases ih _ _ i' w hw t ht d hd with hc | ⟨j, hj, w2, hw2, u, hu, hud⟩
        · rcases List.mem_append.mp hc with hc | hc
          · exact Or.inl hc
          · obtain ⟨u, hu, hud⟩ := List.mem_map.mp hc
            refine Or.inr ⟨0, Nat.succ_pos i', remaining.filter (taskReady completed), ?_, u, hu, hud⟩
            rw [buildWavesAux, if_neg hcw, List.getElem?_cons_zero]
        · refine Or.inr ⟨j + 1, Nat.succ_lt_succ hj, w2, ?_, u, hu, hud⟩
          rw [buildWavesAux, if_neg hcw, List.getElem?_cons_succ]
          exact hw2

/-- Completeness of the layering loop: when the dependency graph admits a
topological rank (the standard characterization of acyclicity) and every
dependency id names a task of the input (or is already completed), every
task is placed in some wave. -/
theorem buildWavesAux_complete :
    ∀ (fuel : Nat) (r : String → Nat) (completed : List String)
      (remaining : List TaskDecomposition),
      remaining.length ≤ fuel →
      (∀ t ∈ remaining, ∀ d ∈ t.dependencies, d ∈ completed ∨ ∃ u ∈ remaining, u.taskId = d) →
      (∀ t ∈ remaining, ∀ d ∈ t.dependencies, r d < r t.taskId) →
      ∀ t ∈ remaining, ∃ (i : Nat) (w : List TaskDecomposition),
        (buildWavesAux completed remaining fuel)[i]? = some w ∧ t ∈ w := by
  intro fuel
  induction fuel with
  | zero =>
    intro r completed remaining hlen _ _ t ht
    rw [Nat.le_zero, List.length_eq_zero] at hlen
    exact absurd (hlen ▸ ht) (List.not_mem_nil t)
  | succ fuel ih =>
    intro r completed remaining hlen hclosed hrank t ht
    obtain ⟨t0, ht0, ht0min⟩ :=
      exists_min_rank (fun u => r u.taskId) remaining (List.ne_nil_of_mem ht)
    have ht0ready : taskReady completed t0 = true := by
      rw [taskReady_iff]
      intro d hd
      rcases hclosed t0 ht0 d hd with hc | ⟨u, hu, hud⟩
      · exact hc
      · have h1 : r d < r t0.taskId := hrank t0 ht0 d hd
        have h2 : r t0.taskId ≤ r u.taskId := ht0min u hu
        rw [← hud] at h1
        exact absurd h1 (Nat.not_lt.mpr h2)
    have ht0f : t0 ∈ remaining.filter (taskReady completed) :=
      List.mem_filter.mpr ⟨ht0, ht0ready⟩
    have hcw : ¬ (remaining.filter (taskReady completed)).isEmpty := by
      intro h
      rw [List.isEmpty_iff] at h
      exact absurd (h ▸ ht0f) (List.not_mem_nil t0)
    by_cases htready : taskReady completed t = true
    · refine ⟨0, remaining.filter (taskReady completed), ?_, List.mem_filter.mpr ⟨ht, htready⟩⟩
      rw [buildWavesAux, if_neg hcw, List.getElem?_cons_zero]
    · have htrem : t ∈ remaining.filter (fun u => ! taskReady completed u) := by
        refine List.mem_filter.mpr ⟨ht, ?_⟩
        cases h' : taskReady completed t
        · rfl
        · exact absurd h' htready
      have hlen' : (remaining.filter (fun u => ! taskReady completed u)).length ≤ fuel := by
        have := length_filter_not_lt (taskReady completed) remaining ⟨t0, ht0, ht0ready⟩
        omega
      have hclosed' : ∀ t' ∈ remaining.filter (fun u => ! taskReady completed u),
          ∀ d ∈ t'.dependencies,
            d ∈ completed ++ (remaining.filter (taskReady completed)).map (fun u => u.taskId) ∨
            ∃ u ∈ remaining.filter (fun u => ! taskReady completed u), u.taskId = d := by
        intro t' ht' d hd
        have ht'rem : t' ∈ remaining := (List.mem_filter.mp ht').1
        rcases hclosed t' ht'rem d hd with hc | ⟨u, hu, hud⟩
        · exact Or.inl (List.mem_append_left _ hc)
        · cases hu' : taskReady completed u
          · refine Or.inr ⟨u, List.mem_filter.mpr ⟨hu, ?_⟩, hud⟩
            rw [hu']; rfl
          · refine Or.inl (List.mem_append_right _ ?_)
            exact List.mem_map.mpr ⟨u, List.mem_filter.mpr ⟨hu, hu'⟩, hud⟩
      have hrank' : ∀ t' ∈ remaining.filter (fun u => ! taskReady completed u),
          ∀ d ∈ t'.dependencies, r d < r t'.taskId := by
        intro t' ht' d hd
        exact hrank t' (List.mem_filter.mp ht').1 d hd
      obtain ⟨i, w, hw, htw⟩ := ih r _ _ hlen' hclosed' hrank' t htrem
      refine ⟨i + 1, w, ?_, htw⟩
      rw [buildWavesAux, if_neg hcw, List.getElem?_cons_succ]
      exact hw

/-- C1: for every input list of subtasks whose dependency graph is acyclic
(witnessed by a topological rank `r`, with every dependency id naming an
input task, and distinct task ids as produced by `uuid4`), the planner
places every subtask in some wave, and every dependency of a subtask placed
in wave `i` belongs to a subtask placed in a wave of strictly smaller index;
for the three-subtask scenario (A, B independent, C depending on both) the
waves are `[{A,B}, {C}]` and the plan is `parallel = [A,B]`,
`sequential = [C]`. -/
theorem buildExecutionPlan_wave_invariant
    (tasks : List TaskDecomposition) (r : String → Nat)
    (_hnodup : (tasks.map (fun t => t.taskId)).Nodup)
    (hclosed : ∀ t ∈ tasks, ∀ d ∈ t.dependencies, ∃ u ∈ tasks, u.taskId = d)
    (hrank : ∀ t ∈ tasks, ∀ d ∈ t.dependencies, r d < r t.taskId) :
    (∀ t ∈ tasks, ∃ (i : Nat) (w : List TaskDecomposition),
        (buildWaves tasks)[i]? = some w ∧ t ∈ w) ∧
    (∀ (i : Nat) (w : List TaskDecomposition), (buildWaves tasks)[i]? = some w →
        ∀ t ∈ w, ∀ d ∈ t.dependencies,
          ∃ j, j < i ∧ ∃ w2, (buildWaves tasks)[j]? = some w2 ∧ ∃ u ∈ w2, u.taskId = d) ∧
    buildWaves scenarioTasks = [[taskA, taskB], [taskC]] ∧
    buildExecutionPlan scenarioTasks = { sequential := [taskC], parallel := [taskA, taskB] } := by
  refine ⟨?_, ?_, by decide, by decide⟩
  · intro t ht
    exact buildWavesAux_complete tasks.length r [] tasks le_rfl
      (fun t ht d hd => Or.inr (hclosed t ht d hd)) hrank t ht
  · intro i w hw t ht d hd
    rcases buildWavesAux_dep_earlier tasks.length [] tasks i w hw t ht d hd with hc | h
    · exact absurd hc (List.not_mem_nil d)
    · exact h

/-- Witness for C1: the theorem applied to the concrete three-subtask
scenario, with the rank function placing C above A and B. -/
theorem buildExecutionPlan_wave_invariant_witness :
    (∃ (i : Nat) (w : List TaskDecomposition),
        (buildWaves scenarioTasks)[i]? = some w ∧ taskC ∈ w) ∧
    buildExecutionPlan scenarioTasks = { sequential := [taskC], parallel := [taskA, taskB] } := by
  have h := buildExecutionPlan_wave_invariant scenarioTasks
    (fun s => if s = "C" then 1 else 0) (by decide) (by decide) (by decide)
  exact ⟨h.1 taskC (by decide), h.2.2.2⟩

/-- C2 is violated by the code: for the spec's own scenario plan (A and B
form the parallel wave, C — which depends on both — is the sequential
bucket), `_executeParallelTasks` runs the whole sequential bucket before
the parallel bucket, so C starts before A settles in every admissible
schedule of the parallel wave. -/
theorem executeParallelTasks_violates_wave_order :
    ∀ parSchedule : List ExecEvent,
      ExecEvent.settle "A" ∈ parSchedule →
      ¬ startsAfterDepsSettle
          (executionTrace (buildExecutionPlan scenarioTasks) parSchedule)
          scenarioTasks := by
  intro parSchedule hA h
  have hmem : ExecEvent.settle "A" ∈
      executionTrace (buildExecutionPlan scenarioTasks) parSchedule := by
    rw [executionTrace]
    exact List.mem_append_right _ hA
  obtain ⟨j, hj⟩ := List.getElem?_of_mem hmem
  have h0 : (executionTrace (buildExecutionPlan scenarioTasks) parSchedule)[0]? =
      some (ExecEvent.start "C") := by
    rw [executionTrace,
      show sequentialTrace (buildExecutionPlan scenarioTasks).sequential =
        [ExecEvent.start "C", ExecEvent.settle "C"] from by decide]
    rfl
  have := h taskC (by decide) "A" (by decide) 0 j h0 hj
  omega

/-- Witness for C2: one concrete admissible parallel schedule. -/
theorem executeParallelTasks_violates_wave_order_witness :
    ¬ startsAfterDepsSettle
        (executionTrace (buildExecutionPlan scenarioTasks)
          [ExecEvent.start "A", ExecEvent.start "B",
           ExecEvent.settle "A", ExecEvent.settle "B"])
        scenarioTasks :=
  executeParallelTasks_violates_wave_order _ (by decide)

/-- C3 is violated by the code: both chain tasks are sequential, the first
raises, and `_executeParallelTasks` propagates the exception instead of
recording it — the caller receives the bare exception, T1's failure is not
recorded as its result, and T2 is never executed. -/
theorem executeParallelTasks_sequential_raise_halts :
    (buildExecutionPlan chainTasks).sequential = [taskT1, taskT2] ∧
    (buildExecutionPlan chainTasks).parallel = [] ∧
    executeParallelTasks chainOutcome (buildExecutionPlan chainTasks) = .error "boom" :=
  ⟨by decide, by decide, rfl⟩

theorem runSequential_keys (outcome : String → TaskOutcome) :
    ∀ seq : List TaskDecomposition,
      (∀ t ∈ seq, ∃ r, outcome t.taskId = .ok r) →
      ∃ rs, runSequential outcome seq = .ok rs ∧
        rs.map Prod.fst = seq.map (fun t => t.taskId) := by
  intro seq
  induction seq with
  | nil => intro _; exact ⟨[], rfl, rfl⟩
  | cons t ts ih =>
    intro hok
    obtain ⟨r, hr⟩ := hok t (List.mem_cons_self t ts)
    obtain ⟨rest, hrest, hkeys⟩ := ih (fun u hu => hok u (List.mem_cons_of_mem t hu))
    refine ⟨(t.taskId, .ok r) :: rest, ?_, ?_⟩
    · rw [runSequential, hr, hrest]
    · simp [hkeys]

theorem lookup_append_of_not_mem_keys {β : Type} (key : String)
    (l2 : List (String × β)) :
    ∀ l1 : List (String × β), key ∉ l1.map Prod.fst →
      (l1 ++ l2).lookup key = l2.lookup key := by
  intro l1
  induction l1 with
  | nil => intro _; rfl
  | cons p l1 ih =>
    intro hkey
    have hne : key ≠ p.1 := by
      intro hcontra
      exact hkey (List.mem_map.mpr ⟨p, List.mem_cons_self p l1, hcontra.symm⟩)
    have hbeq : (key == p.1) = false := beq_eq_false_iff_ne.mpr hne
    simp only [List.cons_append, List.lookup, hbeq]
    exact ih (fun h => by
      rcases List.mem_map.mp h with ⟨q, hq, hq'⟩
      exact hkey (List.mem_map.mpr ⟨q, List.mem_cons_of_mem p hq, hq'⟩))

theorem lookup_runParallelGather (outcome : String → TaskOutcome) :
    ∀ (tasks : List TaskDecomposition) (t : TaskDecomposition), t ∈ tasks →
      (runParallelGather outcome tasks).lookup t.taskId =
        some (parallelEntry outcome t) := by
  intro tasks
  induction tasks with
  | nil => intro t ht; exact absurd ht (List.not_mem_nil t)
  | cons u ts ih =>
    intro t ht
    by_cases hbeq : (t.taskId == u.taskId) = true
    · have hid : t.taskId = u.taskId := eq_of_beq hbeq
      have hentry : parallelEntry outcome t = parallelEntry outcome u := by
        rw [parallelEntry, parallelEntry, hid]
      simp only [runParallelGather, List.map_cons, List.lookup, hbeq, hentry]
    · have hts : t ∈ ts := by
        rcases List.mem_cons.mp ht with h | h
        · exact absurd (by rw [h]; exact beq_self_eq_true u.taskId) hbeq
        · exact h
      have hbeq' : (t.taskId == u.taskId) = false := by
        cases h' : (t.taskId == u.taskId)
        · rfl
        · exact absurd h' hbeq
      simp only [runParallelGather, List.map_cons, List.lookup, hbeq']
      exact ih t hts

/-- C4: whenever the sequential bucket completes (its tasks return rather
than raise) and parallel ids do not collide with sequential ids, the
results mapping contains, for every task of the parallel wave, exactly the
entry determined by that task's own outcome: its result payload if it
returned, and the `{"error": ...}` entry if it raised.  In particular one
task raising never prevents a sibling's result from being recorded. -/
theorem executeParallelTasks_parallel_isolation
    (plan : ExecutionPlan) (outcome : String → TaskOutcome)
    (hseq : ∀ t ∈ plan.sequential, ∃ r, outcome t.taskId = .ok r)
    (hdisj : ∀ t ∈ plan.parallel, t.taskId ∉ plan.sequential.map (fun u => u.taskId)) :
    ∃ results, executeParallelTasks outcome plan = .ok results ∧
      ∀ t ∈ plan.parallel,
        results.lookup t.taskId =
          some (match outcome t.taskId with
                | .ok r => ResultEntry.ok r
                | .raised e => ResultEntry.errorEntry e) := by
  obtain ⟨rs, hrs, hkeys⟩ := runSequential_keys outcome plan.sequential hseq
  refine ⟨rs ++ runParallelGather outcome plan.parallel, ?_, ?_⟩
  · rw [executeParallelTasks, hrs]
  · intro t ht
    rw [lookup_append_of_not_mem_keys t.taskId _ rs (hkeys ▸ hdisj t ht),
      lookup_runParallelGather outcome plan.parallel t ht]
    rfl

/-- Witness for C4: on the scenario plan with A raising, A's failure is an
error entry and sibling B's result is still recorded. -/
theorem executeParallelTasks_parallel_isolation_witness :
    ∃ results,
      executeParallelTasks c4Outcome (buildExecutionPlan scenarioTasks) = .ok results ∧
      results.lookup "A" = some (ResultEntry.errorEntry "x") ∧
      results.lookup "B" = some (ResultEntry.ok "done") := by
  obtain ⟨results, heq, hall⟩ :=
    executeParallelTasks_parallel_isolation (buildExecutionPlan scenarioTasks) c4Outcome
      (by
        intro t ht
        rw [show (buildExecutionPlan scenarioTasks).sequential = [taskC] from by decide] at ht
        rw [List.mem_singleton.mp ht]
        exact ⟨"done", rfl⟩)
      (by decide)
  exact ⟨results, heq, hall taskA (by decide), hall taskB (by decide)⟩

/-- The greedy loop either stays strictly under the budget or adds
nothing. -/
theorem greedyInclude_lt_or_eq (maxTokens : Nat) :
    ∀ (ms : List String) (total : Nat),
      (greedyInclude maxTokens ms total).2 < maxTokens ∨
        (greedyInclude maxTokens ms total).2 = total := by
  intro ms
  induction ms with
  | nil => intro total; exact Or.inr rfl
  | cons m ms ih =>
    intro total
    by_cases h : total + countTokens m < maxTokens
    · have heq : greedyInclude maxTokens (m :: ms) total =
          (m :: (greedyInclude maxTokens ms (total + countTokens m)).1,
            (greedyInclude maxTokens ms (total + countTokens m)).2) := by
        rw [greedyInclude, if_pos h]
      rw [heq]
      rcases ih (total + countTokens m) with h' | h'
      · exact Or.inl h'
      · exact Or.inl (by rw [h']; exact h)
    · have heq : greedyInclude maxTokens (m :: ms) total = ([], total) := by
        rw [greedyInclude, if_neg h]
      rw [heq]
      exact Or.inr rfl

/-- C5 is violated by the code on over-budget snapshots: the
working-memory cost is added unconditionally, so a snapshot of 2 tokens
against a budget of 1 yields `totalTokens = 2 > 1`. -/
theorem retrieveContext_budget_counterexample :
    (retrieveContext "aaaaaaaa" [] [] [] 1).totalTokens = 2 ∧ ¬ (2 ≤ 1) := by
  decide

/-- C5 amended: the bundle satisfies `totalTokens ≤ budget` whenever the
always-included working-memory snapshot itself costs at most the budget;
when the snapshot alone exceeds the budget, both greedy tiers are skipped
and `totalTokens` equals the snapshot's cost, exceeding the budget. -/
theorem retrieveContext_budget (workingCtx : String) (recentEpisodic : List String)
    (rankedSemantic : List String) (proceduralNames : List String) (maxTokens : Nat) :
    (countTokens workingCtx ≤ maxTokens →
      (retrieveContext workingCtx recentEpisodic rankedSemantic proceduralNames
        maxTokens).totalTokens ≤ maxTokens) ∧
    (maxTokens < countTokens workingCtx →
      (retrieveContext workingCtx recentEpisodic rankedSemantic proceduralNames
        maxTokens).totalTokens = countTokens workingCtx) := by
  constructor
  · intro hwb
    show (semanticPhase rankedSemantic maxTokens
      (episodicPhase workingCtx recentEpisodic maxTokens).2).2 ≤ maxTokens
    have he : (episodicPhase workingCtx recentEpisodic maxTokens).2 ≤ maxTokens := by
      rw [episodicPhase]
      by_cases hlt : countTokens workingCtx < maxTokens
      · rw [if_pos hlt]
        rcases greedyInclude_lt_or_eq maxTokens recentEpisodic (countTokens workingCtx)
          with h | h
        · exact le_of_lt h
        · rw [h]; exact hwb
      · rw [if_neg hlt]
        exact hwb
    rw [semanticPhase]
    by_cases hs : 10 * (episodicPhase workingCtx recentEpisodic maxTokens).2 < 7 * maxTokens
    · rw [if_pos hs]
      rcases greedyInclude_lt_or_eq maxTokens rankedSemantic
        (episodicPhase workingCtx recentEpisodic maxTokens).2 with h | h
      · exact le_of_lt h
      · rw [h]; exact he
    · rw [if_neg hs]
      exact he
  · intro hbw
    show (semanticPhase rankedSemantic maxTokens
      (episodicPhase workingCtx recentEpisodic maxTokens).2).2 = countTokens workingCtx
    have he : (episodicPhase workingCtx recentEpisodic maxTokens).2 =
        countTokens workingCtx := by
      rw [episodicPhase, if_neg (by omega)]
    rw [semanticPhase, he, if_neg (by omega)]

/-- Witness for C5 amended: a 1-token snapshot against a budget of 10. -/
theorem retrieveContext_budget_witness :
    (retrieveContext "aaaa" [] [] [] 10).totalTokens ≤ 10 :=
  (retrieveContext_budget "aaaa" [] [] [] 10).1 (by decide)

/-- C9 is violated by the code: with a budget of 10 and a 5-token
working snapshot, the remaining budget (5) is not above 70% of the budget
(7), yet the semantic tier is fetched and appended, because the code's
condition is `consumed < 70% of budget`, not `remaining > 70% of budget`. -/
theorem retrieveContext_semantic_threshold_counterexample :
    (retrieveContext "aaaaaaaaaaaaaaaaaaaa" [] ["aaaa"] [] 10).semanticFetched = true ∧
    (retrieveContext "aaaaaaaaaaaaaaaaaaaa" [] ["aaaa"] [] 10).semantic = ["aaaa"] ∧
    ¬ (7 * 10 < 10 * (10 - countTokens "aaaaaaaaaaaaaaaaaaaa")) := by
  decide

/-- C9 amended: the semantic tier is fetched if and only if the tokens
consumed after the working and episodic tiers are still below 70% of the
total budget (equivalently, it is skipped once at least 70% of the budget
has been consumed); semantic records are appended only when it is
fetched. -/
theorem retrieveContext_semantic_threshold (workingCtx : String)
    (recentEpisodic : List String) (rankedSemantic : List String)
    (proceduralNames : List String) (maxTokens : Nat) :
    ((retrieveContext workingCtx recentEpisodic rankedSemantic proceduralNames
        maxTokens).semanticFetched = true ↔
      10 * (episodicPhase workingCtx recentEpisodic maxTokens).2 < 7 * maxTokens) ∧
    ((retrieveContext workingCtx recentEpisodic rankedSemantic proceduralNames
        maxTokens).semantic ≠ [] →
      (retrieveContext workingCtx recentEpisodic rankedSemantic proceduralNames
        maxTokens).semanticFetched = true) := by
  constructor
  · exact decide_eq_true_iff
  · intro hne
    by_contra hfetch
    rw [Bool.not_eq_true] at hfetch
    have hfetch' :
        ¬ 10 * (episodicPhase workingCtx recentEpisodic maxTokens).2 < 7 * maxTokens :=
      of_decide_eq_false hfetch
    apply hne
    show (semanticPhase rankedSemantic maxTokens
      (episodicPhase workingCtx recentEpisodic maxTokens).2).1 = []
    rw [semanticPhase, if_neg hfetch']

/-- Witness for C9 amended: the same 5-token snapshot against a budget of
10 has consumed only 50% of the budget, so the semantic tier is fetched. -/
theorem retrieveContext_semantic_threshold_witness :
    (retrieveContext "aaaaaaaaaaaaaaaaaaaa" [] ["aaaa"] [] 10).semanticFetched = true :=
  (retrieveContext_semantic_threshold "aaaaaaaaaaaaaaaaaaaa" [] ["aaaa"] [] 10).1.mpr
    (by decide)

theorem toolEventsFor_shape (env : EngineEnv) (calls : List ToolCallSpec) :
    ∀ e ∈ toolEventsFor env calls, ∃ n, e = EngineEvent.toolExec n := by
  intro e he
  rw [toolEventsFor] at he
  obtain ⟨c, _, hc⟩ := List.mem_flatMap.mp he
  by_cases h : env.availableTools.contains c.name = true
  · rw [if_pos h] at hc
    exact ⟨c.name, List.mem_singleton.mp hc⟩
  · rw [if_neg h] at hc
    exact absurd hc (List.not_mem_nil e)

theorem toolEventsFor_no_modelCall (env : EngineEnv) (calls : List ToolCallSpec) :
    (toolEventsFor env calls).countP isModelCallEvent = 0 := by
  rw [List.countP_eq_zero]
  intro e he
  obtain ⟨n, hn⟩ := toolEventsFor_shape env calls e he
  rw [hn]
  simp [isModelCallEvent]

/-- Every event the iteration loop itself appends is a model invocation or
a tool dispatch: the loop performs no memory writes. -/
theorem runIterations_events_shape (env : EngineEnv) :
    ∀ (fuel iterations totalTokens : Nat) (tcs : List ToolCallRecord)
      (evs : List EngineEvent),
      ∃ extra : List EngineEvent,
        loopEvents (runIterations env iterations totalTokens fuel tcs evs) =
          evs ++ extra ∧
        ∀ e ∈ extra, (∃ i, e = EngineEvent.modelCall i) ∨
          (∃ n, e = EngineEvent.toolExec n) := by
  intro fuel
  induction fuel with
  | zero =>
    intro iterations totalTokens tcs evs
    refine ⟨[], by simp [runIterations, loopEvents], ?_⟩
    intro e he
    exact absurd he (List.not_mem_nil e)
  | succ fuel ih =>
    intro iterations totalTokens tcs evs
    rw [runIterations]
    by_cases h1 : env.maxTokenLimit <
        totalTokens + (env.responses (iterations + 1)).usageTokens
    · rw [if_pos h1]
      refine ⟨[.modelCall (iterations + 1)], rfl, ?_⟩
      intro e he
      rw [List.mem_singleton.mp he]
      exact Or.inl ⟨iterations + 1, rfl⟩
    · rw [if_neg h1]
      by_cases h2 : (env.responses (iterations + 1)).toolCalls.isEmpty = true
      · rw [if_pos h2]
        refine ⟨[.modelCall (iterations + 1)], rfl, ?_⟩
        intro e he
        rw [List.mem_singleton.mp he]
        exact Or.inl ⟨iterations + 1, rfl⟩
      · rw [if_neg h2]
        obtain ⟨extra', heq, hshape⟩ := ih (iterations + 1)
          (totalTokens + (env.responses (iterations + 1)).usageTokens)
          (tcs ++ (env.responses (iterations + 1)).toolCalls.map (fun c =>
            { id := c.id, name := c.name, input := c.input
              result := resolveToolResult env c.name }))
          (evs ++ [.modelCall (iterations + 1)] ++
            toolEventsFor env (env.responses (iterations + 1)).toolCalls)
        refine ⟨[EngineEvent.modelCall (iterations + 1)] ++
          toolEventsFor env (env.responses (iterations + 1)).toolCalls ++ extra', ?_, ?_⟩
        · rw [heq]
          simp [List.append_assoc]
        · intro e he
          rcases List.mem_append.mp he with he | he
          · rcases List.mem_append.mp he with he | he
            · rw [List.mem_singleton.mp he]
              exact Or.inl ⟨iterations + 1, rfl⟩
            · exact Or.inr (toolEventsFor_shape env _ e he)
          · exact hshape e he

/-- When the cumulative usage first exceeds the ceiling at iteration `k`
(and every earlier iteration requested tools, so the loop kept going), the
loop exits with `TokenLimitExceeded` at exactly iteration `k`: the `k`-th
model call is the last event and no tool dispatch follows it. -/
theorem runIterations_token_exceeded (env : EngineEnv) (k : Nat)
    (hexceed : env.maxTokenLimit < cumulativeUsage env k)
    (hprev : ∀ j, j < k → cumulativeUsage env j ≤ env.maxTokenLimit)
    (htools : ∀ j, 1 ≤ j → j < k → (env.responses j).toolCalls ≠ []) :
    ∀ (fuel n : Nat) (tcs : List ToolCallRecord) (evs : List EngineEvent),
      n < k → k ≤ n + fuel →
      ∃ (tcs' : List ToolCallRecord) (extra : List EngineEvent),
        runIterations env n (cumulativeUsage env n) fuel tcs evs =
          .tokenExceeded k (cumulativeUsage env k) tcs' (evs ++ extra) ∧
        extra.countP isModelCallEvent = k - n ∧
        extra ≠ [] ∧
        extra.getLast? = some (.modelCall k) := by
  intro fuel
  induction fuel with
  | zero => intro n tcs evs hn hk; omega
  | succ fuel ih =>
    intro n tcs evs hn hk
    have hcum : cumulativeUsage env (n + 1) =
        cumulativeUsage env n + (env.responses (n + 1)).usageTokens := rfl
    rw [runIterations]
    by_cases hlast : n + 1 = k
    · subst hlast
      have hcond : env.maxTokenLimit <
          cumulativeUsage env n + (env.responses (n + 1)).usageTokens := by
        rw [← hcum]
        exact hexceed
      rw [if_pos hcond]
      refine ⟨tcs, [.modelCall (n + 1)], ?_, ?_, by simp, rfl⟩
      · rw [← hcum]
      · rw [show ([EngineEvent.modelCall (n + 1)] : List EngineEvent).countP
          isModelCallEvent = 1 from rfl]
        omega
    · have hn1 : n + 1 < k := by omega
      have hcond : ¬ env.maxTokenLimit <
          cumulativeUsage env n + (env.responses (n + 1)).usageTokens := by
        have := hprev (n + 1) hn1
        rw [hcum] at this
        omega
      rw [if_neg hcond]
      have hempty : ¬ (env.responses (n + 1)).toolCalls.isEmpty = true := by
        rw [List.isEmpty_iff]
        exact htools (n + 1) (by omega) hn1
      rw [if_neg hempty, ← hcum]
      obtain ⟨tcs', extra', heq, hcount, hne, hlastE⟩ :=
        ih (n + 1)
          (tcs ++ (env.responses (n + 1)).toolCalls.map (fun c =>
            { id := c.id, name := c.name, input := c.input
              result := resolveToolResult env c.name }))
          (evs ++ [.modelCall (n + 1)] ++
            toolEventsFor env (env.responses (n + 1)).toolCalls)
          hn1 (by omega)
      rw [heq]
      refine ⟨tcs', [EngineEvent.modelCall (n + 1)] ++
        toolEventsFor env (env.responses (n + 1)).toolCalls ++ extra', ?_, ?_, ?_, ?_⟩
      · rw [show evs ++ ([EngineEvent.modelCall (n + 1)] ++
            toolEventsFor env (env.responses (n + 1)).toolCalls ++ extra') =
          evs ++ [EngineEvent.modelCall (n + 1)] ++
            toolEventsFor env (env.responses (n + 1)).toolCalls ++ extra' from by
          simp [List.append_assoc]]
      · rw [List.countP_append, List.countP_append,
          toolEventsFor_no_modelCall, hcount,
          show ([EngineEvent.modelCall (n + 1)] : List EngineEvent).countP
            isModelCallEvent = 1 from rfl]
        omega
      · simp
      · have hne2 : toolEventsFor env (env.responses (n + 1)).toolCalls ++ extra' ≠ [] :=
          fun h => hne (List.append_eq_nil.mp h).2
        rw [List.append_assoc, List.getLast?_append_of_ne_nil _ hne2,
          List.getLast?_append_of_ne_nil _ hne]
        exact hlastE

/-- When every iteration up to `k` stays within the token ceiling, each
iteration before `k` requests tools, and iteration `k` returns a final
answer, the loop exits `finished` at iteration `k` with that answer and
the cumulative usage. -/
theorem runIterations_finished (env : EngineEnv) (k : Nat)
    (hbudget : ∀ j, j ≤ k → cumulativeUsage env j ≤ env.maxTokenLimit)
    (htools : ∀ j, 1 ≤ j → j < k → (env.responses j).toolCalls ≠ [])
    (hfinal : (env.responses k).toolCalls = []) :
    ∀ (fuel n : Nat) (tcs : List ToolCallRecord) (evs : List EngineEvent),
      n < k → k ≤ n + fuel →
      ∃ (tcs' : List ToolCallRecord) (evs' : List EngineEvent),
        runIterations env n (cumulativeUsage env n) fuel tcs evs =
          .finished k (cumulativeUsage env k) (env.responses k).text tcs' evs' := by
  intro fuel
  induction fuel with
  | zero => intro n tcs evs hn hk; omega
  | succ fuel ih =>
    intro n tcs evs hn hk
    have hcum : cumulativeUsage env (n + 1) =
        cumulativeUsage env n + (env.responses (n + 1)).usageTokens := rfl
    rw [runIterations]
    have hcond : ¬ env.maxTokenLimit <
        cumulativeUsage env n + (env.responses (n + 1)).usageTokens := by
      have := hbudget (n + 1) (by omega)
      rw [hcum] at this
      omega
    rw [if_neg hcond]
    by_cases hlast : n + 1 = k
    · subst hlast
      have hempty : (env.responses (n + 1)).toolCalls.isEmpty = true := by
        rw [List.isEmpty_iff]
        exact hfinal
      rw [if_pos hempty, ← hcum]
      exact ⟨tcs, evs ++ [.modelCall (n + 1)], rfl⟩
    · have hn1 : n + 1 < k := by omega
      have hempty : ¬ (env.responses (n + 1)).toolCalls.isEmpty = true := by
        rw [List.isEmpty_iff]
        exact htools (n + 1) (by omega) hn1
      rw [if_neg hempty, ← hcum]
      exact ih (n + 1) _ _ hn1 (by omega)

/-- C8: whenever `depth ≥ maxRecursionDepth`, `execute` raises
`RecursionDepthExceeded` immediately: no execution record is created and
the side-effect trace is empty — no model call, tool call, or memory
read/write is issued. -/
theorem execute_depth_ceiling (env : EngineEnv) (userMessage : String)
    (h : env.maxRecursionDepth ≤ env.depth) :
    execute env userMessage =
      { outcome := .error (.recursionDepthExceeded env.depth env.maxRecursionDepth)
        record := none, events := [] } := by
  rw [execute, if_pos h]

/-- Witness for C8: the boundary case `depth == maxRecursionDepth`. -/
theorem execute_depth_ceiling_witness :
    execute depthEnv "msg" =
      { outcome := .error (.recursionDepthExceeded 5 5)
        record := none, events := [] } :=
  execute_depth_ceiling depthEnv "msg" (by decide)

/-- C7: when the cumulative usage first exceeds the configured token
ceiling at iteration `k` (every earlier iteration stayed within it and
requested tools), `execute` aborts: the caller receives the wrapped
`TokenLimitExceeded`, the execution record is marked failed with the
token-limit message, exactly `k` model calls were issued, and the `k`-th
model call is the final event — no further model or tool call occurs. -/
theorem execute_token_ceiling (env : EngineEnv) (userMessage : String) (k : Nat)
    (hdepth : env.depth < env.maxRecursionDepth)
    (hctx : env.contextOutcome = .ok ())
    (hk : k ≤ maxIterations)
    (hexceed : env.maxTokenLimit < cumulativeUsage env k)
    (hprev : ∀ j, j < k → cumulativeUsage env j ≤ env.maxTokenLimit)
    (htools : ∀ j, 1 ≤ j → j < k → (env.responses j).toolCalls ≠ []) :
    ∃ r, (execute env userMessage).record = some r ∧
      r.status = AgentStatus.failed ∧
      r.errorMessage = some (tokenLimitMessage (cumulativeUsage env k) env.maxTokenLimit) ∧
      (execute env userMessage).outcome = .error (.agentExecutionError
        ("Agent execution failed: " ++
          tokenLimitMessage (cumulativeUsage env k) env.maxTokenLimit)) ∧
      (execute env userMessage).events.countP isModelCallEvent = k ∧
      (execute env userMessage).events.getLast? = some (.modelCall k) := by
  have hk0 : 0 < k := by
    rcases Nat.eq_zero_or_pos k with h | h
    · subst h
      exact absurd hexceed (by simp [cumulativeUsage])
    · exact h
  obtain ⟨tcs', extra, heq, hcount, hne, hlastE⟩ :=
    runIterations_token_exceeded env k hexceed hprev htools maxIterations 0 [] []
      hk0 (by rw [Nat.zero_add]; exact hk)
  have heq0 : runIterations env 0 0 maxIterations [] [] =
      LoopExit.tokenExceeded k (cumulativeUsage env k) tcs' ([] ++ extra) := heq
  have hres : execute env userMessage =
      { outcome := .error (.agentExecutionError
          ("Agent execution failed: " ++
            tokenLimitMessage (cumulativeUsage env k) env.maxTokenLimit))
        record := some { userMessage := userMessage, agentResponse := none
                         status := .failed, toolCalls := tcs', tokensUsed := 0
                         errorMessage := some (tokenLimitMessage (cumulativeUsage env k)
                           env.maxTokenLimit)
                         depth := env.depth }
        events := [.registerExecution, .toolsLoad, .memReadContext,
          .memReadHistory] ++ ([] ++ extra) } := by
    rw [execute, if_neg (Nat.not_le.mpr hdepth), hctx, heq0]
  rw [hres]
  refine ⟨_, rfl, rfl, rfl, rfl, ?_, ?_⟩
  · rw [List.nil_append, List.countP_append, hcount]
    rw [show ([EngineEvent.registerExecution, .toolsLoad, .memReadContext,
      .memReadHistory] : List EngineEvent).countP isModelCallEvent = 0 from rfl]
    omega
  · rw [List.nil_append, List.getLast?_append_of_ne_nil _ hne]
    exact hlastE

/-- Witness for C7: the spec's own scenario — cumulative usage after
iteration 2 exceeds the ceiling. -/
theorem execute_token_ceiling_witness :
    ∃ r, (execute tokenEnv "msg").record = some r ∧
      r.status = AgentStatus.failed ∧
      r.errorMessage = some (tokenLimitMessage (cumulativeUsage tokenEnv 2)
        tokenEnv.maxTokenLimit) ∧
      (execute tokenEnv "msg").outcome = .error (.agentExecutionError
        ("Agent execution failed: " ++
          tokenLimitMessage (cumulativeUsage tokenEnv 2) tokenEnv.maxTokenLimit)) ∧
      (execute tokenEnv "msg").events.countP isModelCallEvent = 2 ∧
      (execute tokenEnv "msg").events.getLast? = some (.modelCall 2) := by
  refine execute_token_ceiling tokenEnv "msg" 2 (by decide) rfl (by decide) (by decide)
    ?_ ?_
  · intro j hj
    interval_cases j
    · decide
    · decide
  · intro j h1 h2
    interval_cases j
    decide

/-- C10: when every iteration before the 10th requests tools (within
budget) and the model returns a final answer exactly on the 10th
iteration, the loop breaks with `Completed`, but the post-loop
`iterations >= maxIterations` check overwrites the status to failed with
"Max iterations exceeded" — while the returned record still carries the
final answer text and the accumulated usage. -/
theorem execute_final_answer_overwritten (env : EngineEnv) (userMessage : String)
    (hdepth : env.depth < env.maxRecursionDepth)
    (hctx : env.contextOutcome = .ok ())
    (htools : ∀ j, 1 ≤ j → j < 10 → (env.responses j).toolCalls ≠ [])
    (hfinal : (env.responses 10).toolCalls = [])
    (hbudget : ∀ j, j ≤ 10 → cumulativeUsage env j ≤ env.maxTokenLimit) :
    ∃ r, (execute env userMessage).outcome = .ok r ∧
      r.status = AgentStatus.failed ∧
      r.errorMessage = some "Max iterations exceeded" ∧
      r.agentResponse = some (env.responses 10).text ∧
      r.tokensUsed = cumulativeUsage env 10 := by
  obtain ⟨tcs', evs', heq⟩ :=
    runIterations_finished env 10 hbudget htools hfinal maxIterations 0 [] []
      (by decide) (by decide)
  have heq0 : runIterations env 0 0 maxIterations [] [] =
      LoopExit.finished 10 (cumulativeUsage env 10) (env.responses 10).text tcs' evs' :=
    heq
  have houtcome : (execute env userMessage).outcome =
      .ok { userMessage := userMessage
            agentResponse := some (env.responses 10).text
            status := .failed
            toolCalls := tcs'
            tokensUsed := cumulativeUsage env 10
            errorMessage := some "Max iterations exceeded"
            depth := env.depth } := by
    rw [execute, if_neg (Nat.not_le.mpr hdepth), hctx, heq0]
    exact rfl
  exact ⟨_, houtcome, rfl, rfl, rfl, rfl⟩

/-- Witness for C10: the concrete ten-iteration run. -/
theorem execute_final_answer_overwritten_witness :
    ∃ r, (execute lastIterationEnv "msg").outcome = .ok r ∧
      r.status = AgentStatus.failed ∧
      r.errorMessage = some "Max iterations exceeded" ∧
      r.agentResponse = some (lastIterationEnv.responses 10).text ∧
      r.tokensUsed = cumulativeUsage lastIterationEnv 10 := by
  refine execute_final_answer_overwritten lastIterationEnv "msg" (by decide) rfl
    ?_ (by decide) ?_
  · intro j h1 h2
    interval_cases j <;> decide
  · intro j hj
    interval_cases j <;> decide

/-- C6 is violated by the code: on a token-ceiling abort (a turn that
passed the step-1 depth check and ended Failed), the memory writes at
`agentEngine.py` lines 202-224 are skipped entirely, because they sit in
the `try` body after the loop and the raise jumps to the `except` block:
neither the user message nor any episodic record is persisted. -/
theorem execute_memory_writes_counterexample :
    (execute tokenAbortEnv "msg").outcome = .error (.agentExecutionError
      ("Agent execution failed: " ++ tokenLimitMessage 200 100)) ∧
    EngineEvent.memAppendUser ∉ (execute tokenAbortEnv "msg").events ∧
    (execute tokenAbortEnv "msg").events.countP isStoreInteractionEvent = 0 := by
  decide

/-- C6 amended: for turns that pass the depth check, the conversation
append of the user message and the episodic write happen exactly on the
turns whose loop completes without raising (the turn is then returned,
possibly Failed by the iteration ceiling): the user message is appended on
every such turn, and the episodic record is written precisely when the
final response is truthy — present and non-empty, since the guard
`if execution.agentResponse:` treats the empty string like `None`.  When
the loop raises (token-ceiling abort, or the context-read collaborator
failing), the caller gets the wrapped error and neither write occurs. -/
theorem execute_memory_writes (env : EngineEnv) (userMessage : String)
    (hdepth : env.depth < env.maxRecursionDepth) :
    (∀ r, (execute env userMessage).outcome = .ok r →
      EngineEvent.memAppendUser ∈ (execute env userMessage).events ∧
      (execute env userMessage).events.countP isStoreInteractionEvent =
        (if responseTruthy r.agentResponse then 1 else 0)) ∧
    (∀ err, (execute env userMessage).outcome = .error err →
      EngineEvent.memAppendUser ∉ (execute env userMessage).events ∧
      (execute env userMessage).events.countP isStoreInteractionEvent = 0) := by
  cases hctx : env.contextOutcome with
  | error e =>
    have hres : execute env userMessage =
        { outcome := .error (.agentExecutionError ("Agent execution failed: " ++ e))
          record := some { userMessage := userMessage, agentResponse := none
                           status := .failed, toolCalls := [], tokensUsed := 0
                           errorMessage := some e, depth := env.depth }
          events := [.registerExecution, .toolsLoad, .memReadContext] } := by
      rw [execute, if_neg (Nat.not_le.mpr hdepth), hctx]
    rw [hres]
    constructor
    · intro r hr
      exact absurd hr (by simp)
    · intro err _
      constructor
      · show EngineEvent.memAppendUser ∉
          [EngineEvent.registerExecution, .toolsLoad, .memReadContext]
        decide
      · show List.countP isStoreInteractionEvent
          [EngineEvent.registerExecution, .toolsLoad, .memReadContext] = 0
        decide
  | ok u =>
    cases u
    obtain ⟨extra, hevsEq, hshape⟩ := runIterations_events_shape env maxIterations 0 0 [] []
    have hextraStore : extra.countP isStoreInteractionEvent = 0 := by
      rw [List.countP_eq_zero]
      intro e he
      rcases hshape e he with ⟨i, hi⟩ | ⟨nm, hnm⟩
      · rw [hi]; simp [isStoreInteractionEvent]
      · rw [hnm]; simp [isStoreInteractionEvent]
    have hextraUser : EngineEvent.memAppendUser ∉ extra := by
      intro hmem
      rcases hshape _ hmem with ⟨i, hi⟩ | ⟨nm, hnm⟩
      · simp at hi
      · simp at hnm
    cases hr : runIterations env 0 0 maxIterations [] [] with
    | tokenExceeded its tt tcs levs =>
      have hlevs : levs = extra := by
        rw [hr] at hevsEq
        simpa [loopEvents] using hevsEq
      have hres : execute env userMessage =
          { outcome := .error (.agentExecutionError
              ("Agent execution failed: " ++ tokenLimitMessage tt env.maxTokenLimit))
            record := some { userMessage := userMessage, agentResponse := none
                             status := .failed, toolCalls := tcs, tokensUsed := 0
                             errorMessage := some (tokenLimitMessage tt env.maxTokenLimit)
                             depth := env.depth }
            events := [.registerExecution, .toolsLoad, .memReadContext,
              .memReadHistory] ++ levs } := by
        rw [execute, if_neg (Nat.not_le.mpr hdepth), hctx, hr]
      rw [hres]
      constructor
      · intro r hrr
        exact absurd hrr (by simp)
      · intro err _
        constructor
        · intro hmem
          rcases List.mem_append.mp hmem with h | h
          · revert h; decide
          · rw [hlevs] at h
            exact hextraUser h
        · rw [List.countP_append, hlevs, hextraStore]
          rfl
    | finished its tt text tcs levs =>
      have hlevs : levs = extra := by
        rw [hr] at hevsEq
        simpa [loopEvents] using hevsEq
      have hres : execute env userMessage =
          { outcome := .ok { userMessage := userMessage
                             agentResponse := some text
                             status := if maxIterations ≤ its then AgentStatus.failed
                               else AgentStatus.completed
                             toolCalls := tcs
                             tokensUsed := tt
                             errorMessage := if maxIterations ≤ its
                               then some "Max iterations exceeded" else none
                             depth := env.depth }
            record := some { userMessage := userMessage
                             agentResponse := some text
                             status := if maxIterations ≤ its then AgentStatus.failed
                               else AgentStatus.completed
                             toolCalls := tcs
                             tokensUsed := tt
                             errorMessage := if maxIterations ≤ its
                               then some "Max iterations exceeded" else none
                             depth := env.depth }
            events := [.registerExecution, .toolsLoad, .memReadContext,
                .memReadHistory] ++ levs ++
              ([.memAppendUser] ++
                (if responseTruthy (some text) then
                  [.memAppendAssistant,
                   .memStoreInteraction
                     (if (if maxIterations ≤ its then AgentStatus.failed
                         else AgentStatus.completed) = AgentStatus.completed
                      then "success" else "failed")]
                 else [])) } := by
        rw [execute, if_neg (Nat.not_le.mpr hdepth), hctx, hr]
      rw [hres]
      constructor
      · intro r hrr
        have hr' : r = { userMessage := userMessage
                         agentResponse := some text
                         status := if maxIterations ≤ its then AgentStatus.failed
                           else AgentStatus.completed
                         toolCalls := tcs
                         tokensUsed := tt
                         errorMessage := if maxIterations ≤ its
                           then some "Max iterations exceeded" else none
                         depth := env.depth } := by
          injection hrr with h
          exact h.symm
        subst hr'
        constructor
        · simp
        · rw [List.countP_append, List.countP_append, hlevs, hextraStore]
          by_cases ht : responseTruthy (some text) = true
          · rw [if_pos ht, if_pos ht]
            rfl
          · rw [if_neg ht, if_neg ht]
            rfl
      · intro err hrr
        exact absurd hrr (by simp)
    | exhausted its tt tcs levs =>
      have hlevs : levs = extra := by
        rw [hr] at hevsEq
        simpa [loopEvents] using hevsEq
      have hres : execute env userMessage =
          { outcome := .ok { userMessage := userMessage, agentResponse := none
                             status := .failed, toolCalls := tcs, tokensUsed := 0
                             errorMessage := some "Max iterations exceeded"
                             depth := env.depth }
            record := some { userMessage := userMessage, agentResponse := none
                             status := .failed, toolCalls := tcs, tokensUsed := 0
                             errorMessage := some "Max iterations exceeded"
                             depth := env.depth }
            events := [.registerExecution, .toolsLoad, .memReadContext,
                .memReadHistory] ++ levs ++
              [.memAppendUser] } := by
        rw [execute, if_neg (Nat.not_le.mpr hdepth), hctx, hr]
      rw [hres]
      constructor
      · intro r hrr
        have hr' : r = { userMessage := userMessage, agentResponse := none
                         status := .failed, toolCalls := tcs, tokensUsed := 0
                         errorMessage := some "Max iterations exceeded"
                         depth := env.depth } := by
          injection hrr with h
          exact h.symm
        subst hr'
        constructor
        · simp
        · rw [List.countP_append, List.countP_append, hlevs, hextraStore]
          rfl
      · intro err hrr
        exact absurd hrr (by simp)

/-- Witness for C6 amended: a completed turn appends the user message and
writes exactly one episodic record. -/
theorem execute_memory_writes_witness :
    EngineEvent.memAppendUser ∈ (execute completedTurnEnv "msg").events ∧
    (execute completedTurnEnv "msg").events.countP isStoreInteractionEvent = 1 := by
  have h := (execute_memory_writes completedTurnEnv "msg" (by decide)).1
    { userMessage := "msg", agentResponse := some "hi", status := .completed
      toolCalls := [], tokensUsed := 10, errorMessage := none, depth := 0 }
    (by decide)
  exact ⟨h.1, h.2⟩

end AgentSynapse
